import Mathlib

/-!
Verification of the Upbit announcement poller (`src/main.py`).

The development shallow-embeds the pure core of the program:

* a small model of Python/JSON values (`PyVal`) with Python truthiness,
  `dict.get`, `int(...)` coercion and `str.strip`;
* the ticker regular expression `TICKER_RE` as an executable matcher
  (`extract_ticker`), together with a declarative characterisation;
* the per-tick change-detection / publication step of `main`'s loop
  (`loopStep` / `evaluate`), returning the list of published events and
  the updated watermark, with exceptions modelled by `Except`;
* the outcome classification of `fetch_top_notice` (`classifyFetch`);
* the slot alignment (`align_next_tick`) and tick advancement
  (`advanceTick`) arithmetic of the scheduler, over exact rationals;
* the startup watermark seeding (`initWatermark`).

JSON numbers are modelled as integers (the feed's ids are integral) and
response bodies are given to the classifier already JSON-decoded; real-time
sleeping, sockets and randomisation stay outside the embedding.
-/

namespace UpbitPoller

/-- A Python/JSON value as handled by the script: `None`, booleans, integral
numbers, strings, lists and dicts (dicts modelled as key/value lists with
unique keys, looked up with `List.lookup`). -/
inductive PyVal where
  | none : PyVal
  | bool : Bool → PyVal
  | int : Int → PyVal
  | str : String → PyVal
  | list : List PyVal → PyVal
  | dict : List (String × PyVal) → PyVal

/-- Python truthiness of a value (`bool(v)`). -/
def truthy : PyVal → Bool
  | .none => false
  | .bool b => b
  | .int n => n != 0
  | .str s => s != ""
  | .list xs => !xs.isEmpty
  | .dict fs => !fs.isEmpty

/-- Python `v.get(k, d)`: dict lookup with default, raising `AttributeError`
when the receiver is not a dict (the script never catches `AttributeError`). -/
def pyGetD (v : PyVal) (k : String) (d : PyVal) : Except String PyVal :=
  match v with
  | .dict fs => .ok ((fs.lookup k).getD d)
  | _ => .error "AttributeError"

/-- Python `v.get(k)` with the implicit `None` default. -/
def pyGet (v : PyVal) (k : String) : Except String PyVal :=
  pyGetD v k .none

/-- Whitespace as matched by Python's `\s` / stripped by `str.strip()`
(ASCII whitespace, file/group/record/unit separators, NEL, NBSP and the
Unicode space separators). -/
def pyIsSpace (c : Char) : Bool :=
  c == ' ' || c == '\t' || c == '\n' || c == '\r' || c == '\x0b' || c == '\x0c' ||
  c == '\x1c' || c == '\x1d' || c == '\x1e' || c == '\x1f' || c == '\x85' ||
  c == '\xa0' || c == ' ' ||
  (decide (' ' ≤ c) && decide (c ≤ ' ')) ||
  c == ' ' || c == ' ' || c == ' ' || c == ' ' || c == '　'

/-- Python `str.strip()`: drop leading and trailing whitespace. -/
def pyStrip (s : String) : String :=
  String.mk (((s.data.dropWhile pyIsSpace).reverse.dropWhile pyIsSpace).reverse)

/-- Digit run of Python's base-10 `int(...)` grammar: ASCII digits with single
underscores permitted between digits, accumulating the value. -/
def pyDigitsVal : Nat → List Char → Option Nat
  | acc, [] => some acc
  | _, ['_'] => Option.none
  | acc, '_' :: d :: rest =>
    if d.isDigit then pyDigitsVal (acc * 10 + (d.toNat - 48)) rest else Option.none
  | acc, d :: rest =>
    if d.isDigit then pyDigitsVal (acc * 10 + (d.toNat - 48)) rest else Option.none

/-- Python `int(s)` on a string: optional surrounding whitespace, optional sign,
then a non-empty digit run; anything else raises `ValueError`. -/
def pyIntOfStr (s : String) : Except String Int :=
  let l := ((s.data.dropWhile pyIsSpace).reverse.dropWhile pyIsSpace).reverse
  let core : List Char → Except String Int := fun ds =>
    match ds with
    | [] => .error "ValueError"
    | c :: rest =>
      if c.isDigit then
        match pyDigitsVal 0 (c :: rest) with
        | some n => .ok (Int.ofNat n)
        | Option.none => .error "ValueError"
      else .error "ValueError"
  match l with
  | '+' :: ds => core ds
  | '-' :: ds => (core ds).map (fun n => -n)
  | ds => core ds

/-- Python `int(v)` on an arbitrary value: identity on ints, `0/1` on bools, string
parsing on strs, `TypeError` otherwise. -/
def pyIntVal : PyVal → Except String Int
  | .int n => .ok n
  | .bool b => .ok (if b then 1 else 0)
  | .str s => pyIntOfStr s
  | _ => .error "TypeError"

/-- Substring containment, Python's `needle in hay`. -/
def containsSub (needle hay : List Char) : Bool :=
  (List.range (hay.length + 1)).any (fun i => needle.isPrefixOf (hay.drop i))

/-! ### Ticker extraction (`TICKER_RE` / `extract_ticker`)

`TICKER_RE = \(([A-Z0-9._-]+)\)[^\n]*?(?:신규\s*거래지원\s*안내|디지털\s*자산\s*추가)`

The character class excludes `)`, so the greedy `+` deterministically takes
the maximal class-run after `(`; `\s*` is always followed by a non-space
literal, so it deterministically skips the maximal whitespace run; the lazy
`[^\n]*?` only affects which witness position is found, not whether the
pattern matches, so it is embedded as a left-to-right search. -/

/-- Membership in the class `[A-Z0-9._-]`. -/
def isCodeChar (c : Char) : Bool :=
  (decide ('A' ≤ c) && decide (c ≤ 'Z')) ||
  (decide ('0' ≤ c) && decide (c ≤ '9')) ||
  c == '.' || c == '_' || c == '-'

/-- Match a literal character sequence, returning the remainder. -/
def dropLit : List Char → List Char → Option (List Char)
  | [], s => some s
  | _ :: _, [] => Option.none
  | c :: cs, d :: ds => if c = d then dropLit cs ds else Option.none

/-- Skip the maximal run of `\s` characters. -/
def skipWs (s : List Char) : List Char := s.dropWhile pyIsSpace

/-- Match `a\s*b\s*c` at the head of the input. -/
def trigLit (a b c : List Char) (s : List Char) : Bool :=
  match dropLit a s with
  | Option.none => false
  | some r =>
    match dropLit b (skipWs r) with
    | Option.none => false
    | some r2 => (dropLit c (skipWs r2)).isSome

/-- Match either trigger phrase (`신규\s*거래지원\s*안내` or
`디지털\s*자산\s*추가`) at the head of the input. -/
def trigAny (s : List Char) : Bool :=
  trigLit "신규".data "거래지원".data "안내".data s ||
  trigLit "디지털".data "자산".data "추가".data s

/-- The regex tail `[^\n]*?(?:trigger)`: search for a trigger phrase at or after the current
position, crossing only non-newline characters. -/
def trigSearch : List Char → Bool
  | [] => trigAny []
  | c :: cs => trigAny (c :: cs) || (c != '\n' && trigSearch cs)

/-- Match the full pattern at the current position, returning group 1: a `(`,
then the maximal non-empty run of class characters, a `)`, and a trigger
phrase reachable without crossing a newline. -/
def tickerMatchAt (l : List Char) : Option (List Char) :=
  match l with
  | [] => Option.none
  | c :: rest =>
    if c = '(' then
      match rest.dropWhile isCodeChar with
      | [] => Option.none
      | d :: rest2 =>
        if d = ')' then
          if (rest.takeWhile isCodeChar).isEmpty then Option.none
          else if trigSearch rest2 then some (rest.takeWhile isCodeChar) else Option.none
        else Option.none
    else Option.none

/-- Model of `TICKER_RE.search`: leftmost match of the pattern, returning group 1. -/
def tickerSearch : List Char → Option (List Char)
  | [] => Option.none
  | c :: cs =>
    match tickerMatchAt (c :: cs) with
    | some g => some g
    | Option.none => tickerSearch cs

/-- The function `extract_ticker(title)`: `None` on a falsy title, else the first
`TICKER_RE` match's group 1. -/
def extract_ticker (title : String) : Option String :=
  if title = "" then Option.none
  else (tickerSearch title.data).map String.mk

/-- The total TickerExtractor, `extract_ticker(title) or ""` as used at the
announcement construction site. -/
def extract (title : String) : String :=
  (extract_ticker title).getD ""

/-- Declarative reading of `TICKER_RE` matching at one position: the text is
an opening paren, a non-empty run of class characters `code`, a closing
paren, then some newline-free span followed by a trigger phrase. -/
def TickerPatternAt (l : List Char) (code : List Char) : Prop :=
  code ≠ [] ∧ (∀ c ∈ code, isCodeChar c = true) ∧
  ∃ mid tail, l = '(' :: (code ++ ')' :: (mid ++ tail)) ∧
    (∀ c ∈ mid, c ≠ '\n') ∧ trigAny tail = true

/-! ### Events and the PollResult record -/

/-- The constant `BRAND_MARKER = "업비트(Upbit)"`. -/
def BRAND_MARKER : String := "업비트(Upbit)"

/-- Round to nearest integer, ties to even (Python's `round` rule). -/
def roundHalfEven (q : ℚ) : Int :=
  let f := ⌊q⌋
  if q - f < 1/2 then f
  else if q - f > 1/2 then f + 1
  else if f % 2 = 0 then f else f + 1

/-- Python `round(q, 1)`, in exact rational arithmetic. -/
def pyRound1 (q : ℚ) : ℚ := (roundHalfEven (q * 10) : ℚ) / 10

/-- Fields of a `"status"` payload, exactly the keys built at the status
publication site. -/
structure StatusFields where
  found_at : String
  server : String
  slot : Int
  http_code : Option Int
  rt_ms : ℚ
  etag : String
  x_runtime : String
  resp_size : Nat
  request_url : String
  error : Option String
deriving DecidableEq

/-- Fields of an `"announcement"` payload. -/
structure AnnFields where
  found_at : String
  server : String
  notice_id : String
  title : String
  url : String
  ticker : String
deriving DecidableEq

/-- A published event: either kind of payload. -/
inductive Event where
  | status : StatusFields → Event
  | ann : AnnFields → Event
deriving DecidableEq

/-- Whether an event is an AnnouncementEvent. -/
def Event.isAnn : Event → Bool
  | .ann _ => true
  | .status _ => false

/-- The PollResult dict returned by `fetch_top_notice`: `top` is the raw
first notice value (`Option.none` for Python `None`), `code` the HTTP status
(`Option.none` when a network exception occurred), `error` present exactly
when the exception branch built the dict. -/
structure Meta where
  top : Option PyVal
  code : Option Int
  rt_ms : ℚ
  etag : String
  x_runtime : String
  size : Nat
  url : String
  error : Option String

/-- The status payload built from a PollResult (loop lines 137-150). -/
def statusEvent (fa sv : String) (sl : Int) (m : Meta) : Event :=
  .status ⟨fa, sv, sl, m.code, pyRound1 m.rt_ms, m.etag, m.x_runtime, m.size, m.url, m.error⟩

/-- The coercion `int(top.get("id", 0))` with `TypeError`/`ValueError` caught to `0`
(lines 157-160), for a dict top. -/
def pyCoerceId (fs : List (String × PyVal)) : Int :=
  match pyIntVal ((fs.lookup "id").getD (PyVal.int 0)) with
  | .ok n => n
  | .error _ => 0

/-- The expression `(top.get("title") or "").strip()` (line 162) for a dict top: a truthy
non-string title raises `AttributeError` (uncaught in the script). -/
def titleOf (fs : List (String × PyVal)) : Except String String :=
  let t := (fs.lookup "title").getD PyVal.none
  let t' := if truthy t then t else PyVal.str ""
  match t' with
  | .str s => .ok (pyStrip s)
  | _ => .error "AttributeError"

/-- The notice URL `f"https://upbit.com/service_center/notice?id=\x7bcur_id\x7d"`. -/
def noticeUrl (cid : Int) : String :=
  "https://upbit.com/service_center/notice?id=" ++ toString cid

/-- The announcement payload built for a new notice (lines 168-176). -/
def annEvent (fa sv : String) (fs : List (String × PyVal)) (title : String) : Event :=
  .ann ⟨fa, sv, toString (pyCoerceId fs), title, noticeUrl (pyCoerceId fs),
        (extract_ticker title).getD ""⟩

/-! ### One iteration of the main loop (lines 132-179)

`publish` abstracts `rds.publish`; a `.error` result models the uncaught
exception a broken broadcast connection raises. The step returns the list of
published events in publication order together with the updated watermark. -/

/-- The announcement half of the loop body (lines 154-179): guard on HTTP 200
and a truthy top, coerce the id, strip the title, drop brand-marker titles,
and publish exactly when the id strictly exceeds the watermark, advancing the
watermark in the same step. `sevs` is the list of already-published events. -/
def annStage (publish : Event → Except String Nat) (fa sv : String)
    (m : Meta) (w : Int) (sevs : List Event) : Except String (List Event × Int) :=
  match m.top with
  | Option.none => .ok (sevs, w)
  | some v =>
    if m.code = some 200 ∧ truthy v = true then
      match v with
      | .dict fs =>
        match titleOf fs with
        | .error e => .error e
        | .ok title =>
          if containsSub BRAND_MARKER.data title.data then .ok (sevs, w)
          else if w < pyCoerceId fs then
            match publish (annEvent fa sv fs title) with
            | .error e => .error e
            | .ok _ => .ok (sevs ++ [annEvent fa sv fs title], pyCoerceId fs)
          else .ok (sevs, w)
      | _ => .error "AttributeError"
    else .ok (sevs, w)

/-- One poll-evaluate-publish step of `main`'s loop, given the fetched
PollResult `m` and the current watermark `w`: the status half (lines 135-152)
followed by the announcement half. -/
def loopStep (publish : Event → Except String Nat) (fa sv : String) (sl : Int)
    (m : Meta) (w : Int) : Except String (List Event × Int) :=
  let pubStatus : Except String (List Event) :=
    if m.code ≠ some 200 ∨ m.error.isSome then
      match publish (statusEvent fa sv sl m) with
      | .error e => .error e
      | .ok _ => .ok [statusEvent fa sv sl m]
    else .ok []
  match pubStatus with
  | .error e => .error e
  | .ok sevs => annStage publish fa sv m w sevs

/-- A publisher that always succeeds (reporting zero subscribers). -/
def okPub : Event → Except String Nat := fun _ => .ok 0

/-- The ChangeDetector: the loop step under a publisher that never fails. -/
def evaluate (fa sv : String) (sl : Int) (m : Meta) (w : Int) :
    Except String (List Event × Int) :=
  loopStep okPub fa sv sl m w

/-- A sequence of evaluations in one process, threading the watermark;
stops at the first uncaught exception. -/
def evalSeq (fa sv : String) (sl : Int) : List Meta → Int → Except String Int
  | [], w => .ok w
  | m :: ms, w =>
    match evaluate fa sv sl m w with
    | .error e => .error e
    | .ok (_, w') => evalSeq fa sv sl ms w'

/-! ### Fetch outcome classification (`fetch_top_notice`, lines 57-82) -/

/-- The observable outcome of one `requests.get` call: either a
network-layer exception (`requests.RequestException`) or an HTTP response
with its status code and JSON-decoded body. -/
inductive FetchOutcome where
  | netError : String → FetchOutcome
  | response : Int → PyVal → FetchOutcome

/-- Python `notices[0]`: indexing on the value left by `or []`. -/
def pyIndex0 : PyVal → Except String PyVal
  | .list (x :: _) => .ok x
  | .list [] => .error "IndexError"
  | .str s =>
    match s.data with
    | c :: _ => .ok (.str (String.mk [c]))
    | [] => .error "IndexError"
  | _ => .error "TypeError"

/-- The parse `notices = (data.get("data") or \x7b\x7d).get("notices") or []` followed by
`top = notices[0] if notices else None` (lines 74-75). A first notice that is
JSON `null` is Python `None`, hence `Option.none` like the empty case. -/
def parseTop (body : PyVal) : Except String (Option PyVal) :=
  match pyGet body "data" with
  | .error e => .error e
  | .ok d =>
    let d' := if truthy d then d else PyVal.dict []
    match pyGet d' "notices" with
    | .error e => .error e
    | .ok ns =>
      let ns' := if truthy ns then ns else PyVal.list []
      if truthy ns' then
        match pyIndex0 ns' with
        | .error e => .error e
        | .ok PyVal.none => .ok Option.none
        | .ok t => .ok (some t)
      else .ok Option.none

/-- Classification of one fetch into a PollResult (lines 61-82): the except
branch (line 82) for network failures, the response branch otherwise, parsing
the body only on HTTP 200. `.error` models an exception the handler does not
catch. -/
def classifyFetch (o : FetchOutcome) (rt_ms : ℚ) (etag xrt : String)
    (size : Nat) (url : String) : Except String Meta :=
  match o with
  | .netError msg => .ok ⟨Option.none, Option.none, rt_ms, "-", "-", 0, url, some msg⟩
  | .response code body =>
    if code = 200 then
      match parseTop body with
      | .error e => .error e
      | .ok top => .ok ⟨top, some code, rt_ms, etag, xrt, size, url, Option.none⟩
    else .ok ⟨Option.none, some code, rt_ms, etag, xrt, size, url, Option.none⟩

/-! ### Scheduler arithmetic (lines 101-114 and 181-184) -/

/-- The constant `PERIOD_SEC = 4`. -/
def PERIOD_SEC : ℕ := 4

/-- The function `align_next_tick(slot)` over exact time: returns the chosen first fire
time and the sleep duration, for period `P` (the script instantiates
`P = PERIOD_SEC`). -/
def align_next_tick (P : ℕ) (slot : Int) (now : ℚ) : Int × ℚ :=
  let nowFloor : Int := ⌊now⌋
  let base : Int := nowFloor - nowFloor % (P : Int)
  let first : Int := if ((base + slot : Int) : ℚ) ≤ now then base + slot + (P : Int) else base + slot
  (first, max 0 ((first : ℚ) - now))

/-- Tick advancement at the bottom of the loop: `next_fire += PERIOD_SEC;`
`sleep(max(0.0, next_fire - now))`. Returns the new fire time and the sleep
duration. -/
def advanceTick (P : ℕ) (next_fire now : ℚ) : ℚ × ℚ :=
  (next_fire + (P : ℚ), max 0 (next_fire + (P : ℚ) - now))

/-! ### Startup watermark seeding (lines 123-126) -/

/-- Startup seeding `last_seen_id = int(START_TARGET_ID) if START_TARGET_ID is not None else 0`
with `ValueError` caught to `0`. -/
def initWatermark (env : Option String) : Int :=
  match env with
  | Option.none => 0
  | some s =>
    match pyIntOfStr s with
    | .ok n => n
    | .error _ => 0

/-- Tops on which the announcement half cannot raise: absent, falsy, or a
record whose `"title"` field (if any) is a string or falsy. Actual feed
notices (`\x7bid, title, ...\x7d` records) satisfy this. -/
def goodTop : Option PyVal → Prop
  | Option.none => True
  | some (PyVal.dict fs) =>
    ∀ v, fs.lookup "title" = some v → (∃ s, v = PyVal.str s) ∨ truthy v = false
  | some v => truthy v = false

/-- The notice fields of the spec's end-to-end example. -/
def sampleFields : List (String × PyVal) :=
  [("id", PyVal.int 101), ("title", PyVal.str "(ETH) 디지털 자산 추가 안내")]

/-- The successful PollResult of the spec's end-to-end example:
HTTP 200, notice id 101, title `"(ETH) 디지털 자산 추가 안내"`. -/
def sampleMeta101 : Meta :=
  ⟨some (PyVal.dict sampleFields), some 200, 0, "-", "-", 10,
   "https://api-manager.upbit.com/api/v1/announcements.json", Option.none⟩

/-- A 200 PollResult whose notice title carries the brand marker. -/
def brandFields : List (String × PyVal) :=
  [("id", PyVal.int 999), ("title", PyVal.str " 업비트(Upbit) 점검 안내 ")]

/-- PollResult wrapping `brandFields`. -/
def brandMeta : Meta :=
  ⟨some (PyVal.dict brandFields), some 200, 0, "-", "-", 10, "u", Option.none⟩

/-- The PollResult a network timeout produces (the except branch). -/
def timeoutMeta : Meta :=
  ⟨Option.none, Option.none, 0, "-", "-", 0, "u", some "timeout"⟩

/-- A 429 PollResult (rate-limited, no body parsed). -/
def rateLimitMeta : Meta :=
  ⟨Option.none, some 429, 0, "-", "-", 10, "u", Option.none⟩

/-! ### Theorems -/

/-! #### Helper lemmas on the evaluation step -/

/-- Status payloads are not announcements. -/
lemma isAnn_statusEvent (fa sv : String) (sl : Int) (m : Meta) :
    (statusEvent fa sv sl m).isAnn = false := rfl

/-- Announcement payloads are announcements. -/
lemma isAnn_annEvent (fa sv : String) (fs : List (String × PyVal)) (title : String) :
    (annEvent fa sv fs title).isAnn = true := rfl

/-- Unfolding: `evaluate` is the announcement stage applied after the status stage,
whose publish (under `okPub`) always succeeds. -/
lemma evaluate_eq_annStage (fa sv : String) (sl : Int) (m : Meta) (w : Int) :
    evaluate fa sv sl m w =
      annStage okPub fa sv m w
        (if m.code ≠ some 200 ∨ m.error.isSome then [statusEvent fa sv sl m] else []) := by
  unfold evaluate loopStep okPub
  split_ifs with hc <;> rfl

/-- Complete case analysis of a successful announcement stage under a
publisher that never fails: either nothing beyond `sevs` happened and the
watermark is unchanged, or exactly one announcement for a strictly newer,
non-brand notice was appended and the watermark advanced to its id. -/
lemma annStage_okPub_cases (fa sv : String) (m : Meta) (w : Int)
    (sevs evs : List Event) (w' : Int)
    (h : annStage okPub fa sv m w sevs = .ok (evs, w')) :
    (evs = sevs ∧ w' = w) ∨
      (∃ fs title, m.code = some 200 ∧ m.top = some (PyVal.dict fs) ∧
        titleOf fs = .ok title ∧
        containsSub BRAND_MARKER.data title.data = false ∧
        w < pyCoerceId fs ∧ w' = pyCoerceId fs ∧
        evs = sevs ++ [annEvent fa sv fs title]) := by
  unfold annStage at h
  rcases htop : m.top with _ | v
  · rw [htop] at h
    simp only [Except.ok.injEq, Prod.mk.injEq] at h
    exact Or.inl ⟨h.1.symm, h.2.symm⟩
  · rw [htop] at h
    dsimp only at h
    by_cases hv : m.code = some 200 ∧ truthy v = true
    · rw [if_pos hv] at h
      cases v with
      | dict fs =>
        dsimp only at h
        cases htit : titleOf fs with
        | error e => rw [htit] at h; simp at h
        | ok title =>
          rw [htit] at h
          dsimp only at h
          by_cases hbr : containsSub BRAND_MARKER.data title.data = true
          · rw [if_pos hbr] at h
            simp only [Except.ok.injEq, Prod.mk.injEq] at h
            exact Or.inl ⟨h.1.symm, h.2.symm⟩
          · rw [if_neg hbr] at h
            have hbr' : containsSub BRAND_MARKER.data title.data = false := by
              revert hbr; cases containsSub BRAND_MARKER.data title.data <;> simp
            by_cases hid : w < pyCoerceId fs
            · rw [if_pos hid] at h
              simp only [okPub, Except.ok.injEq, Prod.mk.injEq] at h
              exact Or.inr ⟨fs, title, hv.1, rfl, htit, hbr', hid, h.2.symm, h.1.symm⟩
            · rw [if_neg hid] at h
              simp only [Except.ok.injEq, Prod.mk.injEq] at h
              exact Or.inl ⟨h.1.symm, h.2.symm⟩
      | none => simp at h
      | bool b => simp at h
      | int n => simp at h
      | str s => simp at h
      | list xs => simp at h
    · rw [if_neg hv] at h
      simp only [Except.ok.injEq, Prod.mk.injEq] at h
      exact Or.inl ⟨h.1.symm, h.2.symm⟩

/-- Complete case analysis of a successful evaluation step. -/
lemma evaluate_cases (fa sv : String) (sl : Int) (m : Meta) (w : Int)
    (evs : List Event) (w' : Int)
    (h : evaluate fa sv sl m w = .ok (evs, w')) :
    ∃ sevs, (sevs = [] ∨ sevs = [statusEvent fa sv sl m]) ∧
      (∀ e ∈ sevs, e.isAnn = false) ∧
      ((evs = sevs ∧ w' = w) ∨
        (∃ fs title, m.code = some 200 ∧ m.top = some (PyVal.dict fs) ∧
          titleOf fs = .ok title ∧
          containsSub BRAND_MARKER.data title.data = false ∧
          w < pyCoerceId fs ∧ w' = pyCoerceId fs ∧
          evs = sevs ++ [annEvent fa sv fs title])) := by
  rw [evaluate_eq_annStage] at h
  by_cases hcond : m.code ≠ some 200 ∨ m.error.isSome = true
  · rw [if_pos hcond] at h
    refine ⟨[statusEvent fa sv sl m], Or.inr rfl, ?_, annStage_okPub_cases _ _ _ _ _ _ _ h⟩
    intro e he
    rw [List.mem_singleton] at he
    subst he
    rfl
  · rw [if_neg hcond] at h
    exact ⟨[], Or.inl rfl, by simp, annStage_okPub_cases _ _ _ _ _ _ _ h⟩

/-- A successful evaluation never lowers the watermark. -/
lemma evaluate_mono (fa sv : String) (sl : Int) (m : Meta) (w : Int)
    (evs : List Event) (w' : Int)
    (h : evaluate fa sv sl m w = .ok (evs, w')) : w ≤ w' := by
  rcases evaluate_cases fa sv sl m w evs w' h with ⟨sevs, _, _, hc⟩
  rcases hc with ⟨_, rfl⟩ | ⟨fs, title, _, _, _, _, hlt, rfl, _⟩
  · exact le_refl _
  · exact le_of_lt hlt

/-- Any non-200 PollResult evaluates to exactly one status event and an
unchanged watermark, whatever the rest of the record holds. -/
lemma evaluate_non200 (fa sv : String) (sl : Int) (m : Meta) (w : Int)
    (hc : m.code ≠ some 200) :
    evaluate fa sv sl m w = .ok ([statusEvent fa sv sl m], w) := by
  rw [evaluate_eq_annStage, if_pos (Or.inl hc)]
  rcases htop : m.top with _ | v <;> simp [annStage, htop, hc]

/-- A successful PollResult with a strictly newer non-brand notice evaluates
to exactly the one announcement, advancing the watermark to the notice id. -/
lemma evaluate_success_new (fa sv : String) (sl : Int) (m : Meta) (w : Int)
    (fs : List (String × PyVal)) (title : String)
    (hcode : m.code = some 200) (herr : m.error = Option.none)
    (htop : m.top = some (PyVal.dict fs)) (htr : truthy (PyVal.dict fs) = true)
    (htit : titleOf fs = .ok title)
    (hbr : containsSub BRAND_MARKER.data title.data = false)
    (hid : w < pyCoerceId fs) :
    evaluate fa sv sl m w = .ok ([annEvent fa sv fs title], pyCoerceId fs) := by
  rw [evaluate_eq_annStage, if_neg (by simp [hcode, herr])]
  simp [annStage, htop, hcode, htr, htit, hbr, hid, okPub]

/-- A successful PollResult whose notice id does not exceed the watermark
evaluates to no event and an unchanged watermark. -/
lemma evaluate_success_old (fa sv : String) (sl : Int) (m : Meta) (w : Int)
    (fs : List (String × PyVal)) (title : String)
    (hcode : m.code = some 200) (herr : m.error = Option.none)
    (htop : m.top = some (PyVal.dict fs))
    (htit : titleOf fs = .ok title)
    (hid : ¬ w < pyCoerceId fs) :
    evaluate fa sv sl m w = .ok ([], w) := by
  rw [evaluate_eq_annStage, if_neg (by simp [hcode, herr])]
  by_cases htr : truthy (PyVal.dict fs) = true
  · by_cases hbr : containsSub BRAND_MARKER.data title.data = true <;>
      simp [annStage, htop, hcode, htr, htit, hbr, hid]
  · simp [annStage, htop, htr]

/-- C1: across any sequence of evaluations the watermark never decreases;
an evaluation with no announcement leaves it unchanged; a successful
PollResult whose (coerced) candidate id is at most the watermark produces no
announcement and leaves the watermark unchanged; and every announcement is
produced exactly when the candidate id strictly exceeds the watermark, with
the watermark set to that id in the same step. -/
theorem evaluate_watermark_monotone_dedup_atomic (fa sv : String) (sl : Int) :
    (∀ ms w w'', evalSeq fa sv sl ms w = .ok w'' → w ≤ w'') ∧
    (∀ m w evs w', evaluate fa sv sl m w = .ok (evs, w') →
      ((∀ e ∈ evs, e.isAnn = false) → w' = w) ∧
      (∀ fs, m.top = some (PyVal.dict fs) → pyCoerceId fs ≤ w →
        (∀ e ∈ evs, e.isAnn = false) ∧ w' = w) ∧
      (∀ e ∈ evs, e.isAnn = true →
        ∃ fs title, m.code = some 200 ∧ m.top = some (PyVal.dict fs) ∧
          w < pyCoerceId fs ∧ w' = pyCoerceId fs ∧
          titleOf fs = .ok title ∧ e = annEvent fa sv fs title)) := by
  constructor
  · intro ms
    induction ms with
    | nil =>
      intro w w'' h
      simp only [evalSeq, Except.ok.injEq] at h
      exact le_of_eq h
    | cons m ms ih =>
      intro w w'' h
      simp only [evalSeq] at h
      cases hev : evaluate fa sv sl m w with
      | error e => rw [hev] at h; simp at h
      | ok p =>
        rw [hev] at h
        exact le_trans (evaluate_mono fa sv sl m w p.1 p.2 (by rw [hev])) (ih p.2 w'' h)
  · intro m w evs w' h
    rcases evaluate_cases fa sv sl m w evs w' h with ⟨sevs, hsevs, hsall, hc⟩
    refine ⟨?_, ?_, ?_⟩
    · intro hno
      rcases hc with ⟨_, rfl⟩ | ⟨fs, title, _, _, _, _, _, _, rfl⟩
      · rfl
      · have := hno (annEvent fa sv fs title)
          (List.mem_append.mpr (Or.inr (List.mem_singleton.mpr rfl)))
        rw [isAnn_annEvent] at this
        exact absurd this (by simp)
    · intro fs htop hle
      rcases hc with ⟨rfl, rfl⟩ | ⟨fs', title, _, htop', _, _, hlt, _, _⟩
      · exact ⟨hsall, rfl⟩
      · rw [htop] at htop'
        have : fs = fs' := by
          simpa [PyVal.dict.injEq] using htop'
        subst this
        exact absurd hle (not_le.mpr hlt)
    · intro e he hann
      rcases hc with ⟨rfl, rfl⟩ | ⟨fs, title, hcode, htop, htit, _, hlt, rfl, rfl⟩
      · rw [hsall e he] at hann
        exact absurd hann (by simp)
      · rcases List.mem_append.mp he with hse | hend
        · rw [hsall e hse] at hann
          exact absurd hann (by simp)
        · rw [List.mem_singleton] at hend
          exact ⟨fs, title, hcode, htop, hlt, rfl, htit, hend⟩

/-- Witness for the watermark theorem: evaluating the sample notice (id 101)
against watermark 200 produces no announcement and leaves the watermark at
200. -/
theorem evaluate_watermark_monotone_dedup_atomic_witness :
    evaluate "t" "s" 0 sampleMeta101 200 = .ok ([], 200) ∧
    ((∀ e ∈ ([] : List Event), e.isAnn = false) ∧ (200 : Int) = 200) :=
  ⟨rfl,
   ((evaluate_watermark_monotone_dedup_atomic "t" "s" 0).2 sampleMeta101 200 [] 200
       rfl).2.1 sampleFields rfl (by decide)⟩

/-- C2: a PollResult that failed (non-200 code, or error set, the two being
exclusive by the fetch classification) publishes exactly one status event and
no announcement, leaving the watermark unchanged; a successful PollResult
publishes no status event; a successful new valid notice publishes exactly
one announcement; a 429 publishes exactly one status event and no
announcement. -/
theorem status_announcement_mutually_exclusive (fa sv : String) (sl : Int)
    (m : Meta) (w : Int)
    (hwf : m.error.isSome = true → m.code = Option.none) :
    ((m.code ≠ some 200 ∨ m.error.isSome = true) →
      evaluate fa sv sl m w = .ok ([statusEvent fa sv sl m], w) ∧
      (statusEvent fa sv sl m).isAnn = false) ∧
    (m.code = some 200 → m.error = Option.none →
      ∀ evs w', evaluate fa sv sl m w = .ok (evs, w') →
        evs.countP (fun e => !e.isAnn) = 0) ∧
    (∀ fs title, m.code = some 200 → m.top = some (PyVal.dict fs) →
      truthy (PyVal.dict fs) = true → titleOf fs = .ok title →
      containsSub BRAND_MARKER.data title.data = false → w < pyCoerceId fs →
      evaluate fa sv sl m w = .ok ([annEvent fa sv fs title], pyCoerceId fs) ∧
      (annEvent fa sv fs title).isAnn = true) ∧
    (m.code = some 429 →
      evaluate fa sv sl m w = .ok ([statusEvent fa sv sl m], w) ∧
      (statusEvent fa sv sl m).isAnn = false) := by
  have hfail : m.code ≠ some 200 →
      evaluate fa sv sl m w = .ok ([statusEvent fa sv sl m], w) :=
    fun hc => evaluate_non200 fa sv sl m w hc
  refine ⟨?_, ?_, ?_, ?_⟩
  · rintro (hc | he)
    · exact ⟨hfail hc, rfl⟩
    · exact ⟨hfail (by rw [hwf he]; exact fun h => Option.noConfusion h), rfl⟩
  · intro hcode herr evs w' h
    rw [evaluate_eq_annStage, if_neg (by simp [hcode, herr])] at h
    rcases annStage_okPub_cases fa sv m w [] evs w' h with ⟨rfl, _⟩ |
      ⟨fs, title, _, _, _, _, _, _, rfl⟩
    · rfl
    · simp [List.countP_append, List.countP_cons, Event.isAnn, annEvent]
  · intro fs title hcode htop htr htit hbr hid
    exact ⟨evaluate_success_new fa sv sl m w fs title hcode
      (by rcases herr : m.error with _ | e
          · rfl
          · exact absurd (hwf (by rw [herr]; rfl)) (by rw [hcode]; simp))
      htop htr htit hbr hid, rfl⟩
  · intro hc
    exact ⟨hfail (by rw [hc]; simp), rfl⟩

/-- Witness for status/announcement exclusivity: the timeout PollResult
(error set, no code) yields exactly the one status event. -/
theorem status_announcement_mutually_exclusive_witness :
    (timeoutMeta.error.isSome = true → timeoutMeta.code = Option.none) ∧
    (evaluate "t" "s" 0 timeoutMeta 5 = .ok ([statusEvent "t" "s" 0 timeoutMeta], 5) ∧
      (statusEvent "t" "s" 0 timeoutMeta).isAnn = false) :=
  ⟨fun _ => rfl,
   (status_announcement_mutually_exclusive "t" "s" 0 timeoutMeta 5 (fun _ => rfl)).1
     (Or.inr rfl)⟩

/-- C3: a successful PollResult with a strictly newer non-brand notice
produces exactly one announcement and advances the watermark; evaluating the
identical PollResult again produces no event. Concretely the spec's
end-to-end example: watermark 100, notice id 101, ticker "ETH", second
evaluation silent. -/
theorem evaluate_idempotent (fa sv : String) (sl : Int) :
    (∀ m w fs title, m.code = some 200 → m.error = Option.none →
      m.top = some (PyVal.dict fs) → truthy (PyVal.dict fs) = true →
      titleOf fs = .ok title → containsSub BRAND_MARKER.data title.data = false →
      w < pyCoerceId fs →
      evaluate fa sv sl m w = .ok ([annEvent fa sv fs title], pyCoerceId fs) ∧
      evaluate fa sv sl m (pyCoerceId fs) = .ok ([], pyCoerceId fs)) ∧
    (evaluate fa sv sl sampleMeta101 100 =
        .ok ([Event.ann ⟨fa, sv, "101", "(ETH) 디지털 자산 추가 안내",
          "https://upbit.com/service_center/notice?id=101", "ETH"⟩], 101) ∧
      evaluate fa sv sl sampleMeta101 101 = .ok ([], 101)) := by
  constructor
  · intro m w fs title hcode herr htop htr htit hbr hid
    exact ⟨evaluate_success_new fa sv sl m w fs title hcode herr htop htr htit hbr hid,
      evaluate_success_old fa sv sl m (pyCoerceId fs) fs title hcode herr htop htit
        (lt_irrefl _)⟩
  · exact ⟨rfl, rfl⟩

/-- Witness for idempotence at the spec's end-to-end example, hypotheses
discharged by computation. -/
theorem evaluate_idempotent_witness :
    (evaluate "t" "s" 0 sampleMeta101 100 =
        .ok ([annEvent "t" "s" sampleFields "(ETH) 디지털 자산 추가 안내"], pyCoerceId sampleFields) ∧
      evaluate "t" "s" 0 sampleMeta101 (pyCoerceId sampleFields) =
        .ok ([], pyCoerceId sampleFields)) :=
  (evaluate_idempotent "t" "s" 0).1 sampleMeta101 100 sampleFields
    "(ETH) 디지털 자산 추가 안내" rfl rfl rfl rfl rfl rfl (by decide)

/-- C4: a successful PollResult whose notice's stripped title contains the
brand marker produces no event and leaves the watermark unchanged, no matter
how large the notice id is. -/
theorem brand_marker_suppression (fa sv : String) (sl : Int) (m : Meta) (w : Int)
    (fs : List (String × PyVal)) (title : String)
    (hcode : m.code = some 200) (herr : m.error = Option.none)
    (htop : m.top = some (PyVal.dict fs)) (htit : titleOf fs = .ok title)
    (hmark : containsSub BRAND_MARKER.data title.data = true) :
    evaluate fa sv sl m w = .ok ([], w) := by
  rw [evaluate_eq_annStage, if_neg (by simp [hcode, herr])]
  by_cases htr : truthy (PyVal.dict fs) = true
  · simp [annStage, htop, hcode, htr, htit, hmark]
  · simp [annStage, htop, htr]

/-- Witness for brand suppression: a 200 PollResult whose notice (id 999,
far above watermark 0) carries the brand marker evaluates to no event. -/
theorem brand_marker_suppression_witness :
    brandMeta.code = some 200 ∧
    containsSub BRAND_MARKER.data (pyStrip " 업비트(Upbit) 점검 안내 ").data = true ∧
    evaluate "t" "s" 0 brandMeta 0 = .ok ([], 0) :=
  ⟨rfl, rfl,
   brand_marker_suppression "t" "s" 0 brandMeta 0 brandFields
     (pyStrip " 업비트(Upbit) 점검 안내 ") rfl rfl rfl rfl rfl⟩

/-- A title field that is a string (or absent, or falsy) always strips
without raising. -/
lemma titleOf_isOk_of_goodTop (fs : List (String × PyVal))
    (hg : ∀ v, fs.lookup "title" = some v → (∃ s, v = PyVal.str s) ∨ truthy v = false) :
    ∃ t, titleOf fs = .ok t := by
  unfold titleOf
  rcases hlk : fs.lookup "title" with _ | v
  · exact ⟨"", rfl⟩
  · rcases hg v hlk with ⟨s, rfl⟩ | hfal
    · by_cases ht : truthy (PyVal.str s) = true
      · simp only [Option.getD_some, if_pos ht]
        exact ⟨pyStrip s, rfl⟩
      · simp only [Option.getD_some, if_neg ht]
        exact ⟨pyStrip "", rfl⟩
    · cases v with
      | str s => simp [hfal]
      | none => exact ⟨pyStrip "", by simp [hfal]⟩
      | bool b => exact ⟨pyStrip "", by simp [hfal]⟩
      | int n => exact ⟨pyStrip "", by simp [hfal]⟩
      | list xs => exact ⟨pyStrip "", by simp [hfal]⟩
      | dict gs => exact ⟨pyStrip "", by simp [hfal]⟩

/-- C9 (amended): network-layer exceptions during the fetch are caught and
classified into a PollResult rather than terminating the process; and when
every publish succeeds and the fetched top notice is a well-shaped record
(absent, falsy, or a dict whose title field is a string or falsy — what the
feed actually returns), the loop step completes normally, whatever the fetch
outcome was. The excluded cases are each a real process abort, exhibited by
the counterexample: a failing publish, a truthy non-record top, a truthy
non-string title, and a malformed 200 body. -/
theorem loopStep_total_of_publish_ok :
    (∀ msg rt etag xrt size url,
      ∃ m, classifyFetch (.netError msg) rt etag xrt size url = .ok m ∧
        m.error = some msg) ∧
    (∀ publish : Event → Except String Nat, (∀ e, ∃ n, publish e = .ok n) →
      ∀ (fa sv : String) (sl : Int) (m : Meta) (w : Int), goodTop m.top →
      ∃ evs w', loopStep publish fa sv sl m w = .ok (evs, w')) := by
  refine ⟨fun msg rt etag xrt size url =>
    ⟨⟨Option.none, Option.none, rt, "-", "-", 0, url, some msg⟩, rfl, rfl⟩, ?_⟩
  intro publish hp fa sv sl m w htop
  unfold loopStep
  have hstage : ∀ sevs, ∃ evs w', annStage publish fa sv m w sevs = .ok (evs, w') := by
    intro sevs
    unfold annStage
    rcases hm : m.top with _ | v
    · exact ⟨sevs, w, rfl⟩
    · rw [hm] at htop
      dsimp only
      by_cases hv : m.code = some 200 ∧ truthy v = true
      · rw [if_pos hv]
        cases v with
        | dict fs =>
          dsimp only
          obtain ⟨t, ht⟩ := titleOf_isOk_of_goodTop fs htop
          rw [ht]
          dsimp only
          by_cases hbr : containsSub BRAND_MARKER.data t.data = true
          · rw [if_pos hbr]; exact ⟨sevs, w, rfl⟩
          · rw [if_neg hbr]
            by_cases hid : w < pyCoerceId fs
            · rw [if_pos hid]
              obtain ⟨n, hn⟩ := hp (annEvent fa sv fs t)
              rw [hn]
              exact ⟨sevs ++ [annEvent fa sv fs t], pyCoerceId fs, rfl⟩
            · rw [if_neg hid]; exact ⟨sevs, w, rfl⟩
        | none => exact absurd hv.2 (by simp [show truthy PyVal.none = false from htop])
        | bool b => exact absurd hv.2 (by simp [show truthy (PyVal.bool b) = false from htop])
        | int n => exact absurd hv.2 (by simp [show truthy (PyVal.int n) = false from htop])
        | str s => exact absurd hv.2 (by simp [show truthy (PyVal.str s) = false from htop])
        | list xs => exact absurd hv.2 (by simp [show truthy (PyVal.list xs) = false from htop])
      · rw [if_neg hv]
        exact ⟨sevs, w, rfl⟩
  by_cases hcond : m.code ≠ some 200 ∨ m.error.isSome = true
  · rw [if_pos hcond]
    obtain ⟨n, hn⟩ := hp (statusEvent fa sv sl m)
    rw [hn]
    exact hstage [statusEvent fa sv sl m]
  · rw [if_neg hcond]
    exact hstage []

/-- Witness for amended loop totality: a successful publisher and a timeout
PollResult complete the step. -/
theorem loopStep_total_of_publish_ok_witness :
    (∀ e, ∃ n, okPub e = Except.ok n) ∧ goodTop timeoutMeta.top ∧
    ∃ evs w', loopStep okPub "t" "s" 0 timeoutMeta 0 = .ok (evs, w') :=
  ⟨fun _ => ⟨0, rfl⟩, trivial,
   loopStep_total_of_publish_ok.2 okPub (fun _ => ⟨0, rfl⟩) "t" "s" 0 timeoutMeta 0 trivial⟩

/-- C9 is refuted as stated: runtime conditions inside the loop abort the
process. A failing publish (a broken broadcast connection) raises out of the
loop step before the tick advance; even under a perfect publisher, a truthy
non-record top notice raises at `top.get`, a truthy non-string title raises
at `.strip()`, and a 200 response whose body is a JSON list raises inside the
fetch itself — each an uncaught exception. -/
theorem loopStep_uncaught_exception_aborts :
    loopStep (fun _ => Except.error "redis.exceptions.ConnectionError")
      "t" "s" 0 timeoutMeta 0
      = Except.error "redis.exceptions.ConnectionError" ∧
    evaluate "t" "s" 0
      ⟨some (PyVal.str "a"), some 200, 0, "-", "-", 5, "u", Option.none⟩ 0
      = Except.error "AttributeError" ∧
    evaluate "t" "s" 0
      ⟨some (PyVal.dict [("id", PyVal.int 7), ("title", PyVal.int 3)]),
       some 200, 0, "-", "-", 5, "u", Option.none⟩ 0
      = Except.error "AttributeError" ∧
    classifyFetch (.response 200 (PyVal.list [])) 0 "-" "-" 2 "u"
      = Except.error "AttributeError" :=
  ⟨rfl, rfl, rfl, rfl⟩

/-- C8 (amended): a network-layer failure classifies to error set, httpStatus
unset, topNotice unset; any HTTP response whose classification produces a
PollResult has httpStatus = the code with error unset, and exactly one of
error/httpStatus is set; a 200 whose body has the data/notices keys absent,
falsy or empty leaves topNotice unset without being an error; but a 200
response whose body is not an object, or whose data field is a truthy
non-object, raises an uncaught `AttributeError` and produces no PollResult at
all. -/
theorem fetch_outcome_classification :
    (∀ msg rt etag xrt size url,
      classifyFetch (.netError msg) rt etag xrt size url =
        .ok ⟨Option.none, Option.none, rt, "-", "-", 0, url, some msg⟩) ∧
    (∀ code body rt etag xrt size url m,
      classifyFetch (.response code body) rt etag xrt size url = .ok m →
      m.code = some code ∧ m.error = Option.none) ∧
    (∀ o rt etag xrt size url m,
      classifyFetch o rt etag xrt size url = .ok m →
      (m.error.isSome = true ↔ m.code = Option.none)) ∧
    (∀ fs rt etag xrt size url,
      (∀ d, fs.lookup "data" = some d → truthy d = false ∨
        ∃ gs, d = PyVal.dict gs ∧
          ∀ ns, gs.lookup "notices" = some ns → truthy ns = false) →
      ∃ m, classifyFetch (.response 200 (PyVal.dict fs)) rt etag xrt size url = .ok m ∧
        m.top = Option.none ∧ m.error = Option.none ∧ m.code = some 200) ∧
    (∀ body rt etag xrt size url, (∀ fs, body ≠ PyVal.dict fs) →
      classifyFetch (.response 200 body) rt etag xrt size url =
        .error "AttributeError") ∧
    (∀ fs d rt etag xrt size url, fs.lookup "data" = some d → truthy d = true →
      (∀ gs, d ≠ PyVal.dict gs) →
      classifyFetch (.response 200 (PyVal.dict fs)) rt etag xrt size url =
        .error "AttributeError") := by
  have hparse : ∀ fs,
      (∀ d, fs.lookup "data" = some d → truthy d = false ∨
        ∃ gs, d = PyVal.dict gs ∧
          ∀ ns, gs.lookup "notices" = some ns → truthy ns = false) →
      parseTop (PyVal.dict fs) = .ok Option.none := by
    intro fs habs
    unfold parseTop pyGet pyGetD
    rcases hlk : fs.lookup "data" with _ | d
    · simp only [hlk]
      rfl
    · rcases habs d hlk with hfal | ⟨gs, rfl, hns⟩
      · simp only [hlk, Option.getD_some, hfal]
        rfl
      · by_cases htr : truthy (PyVal.dict gs) = true
        · rcases hlk2 : gs.lookup "notices" with _ | ns
          · simp only [hlk, Option.getD_some, htr, eq_self_iff_true, if_true, hlk2]
            rfl
          · simp only [hlk, Option.getD_some, htr, eq_self_iff_true, if_true, hlk2,
              hns ns hlk2]
            rfl
        · have hf : truthy (PyVal.dict gs) = false := by
            revert htr; cases truthy (PyVal.dict gs) <;> simp
          simp only [hlk, Option.getD_some, hf]
          rfl
  refine ⟨fun msg rt etag xrt size url => rfl, ?_, ?_, ?_, ?_, ?_⟩
  · intro code body rt etag xrt size url m h
    unfold classifyFetch at h
    dsimp only at h
    by_cases hc : code = 200
    · rw [if_pos hc] at h
      cases hp : parseTop body with
      | error e => rw [hp] at h; exact absurd h (by simp)
      | ok top =>
        rw [hp] at h
        simp only [Except.ok.injEq] at h
        subst h
        exact ⟨by rw [hc], rfl⟩
    · rw [if_neg hc] at h
      simp only [Except.ok.injEq] at h
      subst h
      exact ⟨rfl, rfl⟩
  · intro o rt etag xrt size url m h
    cases o with
    | netError msg =>
      unfold classifyFetch at h
      dsimp only at h
      simp only [Except.ok.injEq] at h
      subst h
      simp
    | response code body =>
      unfold classifyFetch at h
      dsimp only at h
      by_cases hc : code = 200
      · rw [if_pos hc] at h
        cases hp : parseTop body with
        | error e => rw [hp] at h; exact absurd h (by simp)
        | ok top =>
          rw [hp] at h
          simp only [Except.ok.injEq] at h
          subst h
          simp
      · rw [if_neg hc] at h
        simp only [Except.ok.injEq] at h
        subst h
        simp
  · intro fs rt etag xrt size url habs
    refine ⟨⟨Option.none, some 200, rt, etag, xrt, size, url, Option.none⟩, ?_, rfl, rfl, rfl⟩
    unfold classifyFetch
    dsimp only
    rw [if_pos rfl, hparse fs habs]
  · intro body rt etag xrt size url hnd
    have hpe : parseTop body = .error "AttributeError" := by
      unfold parseTop pyGet pyGetD
      cases body with
      | dict fs => exact absurd rfl (hnd fs)
      | none => rfl
      | bool b => rfl
      | int n => rfl
      | str s => rfl
      | list xs => rfl
    unfold classifyFetch
    dsimp only
    rw [if_pos rfl, hpe]
  · intro fs d rt etag xrt size url hlk htr hnd
    have hpe : parseTop (PyVal.dict fs) = .error "AttributeError" := by
      cases d with
      | dict gs => exact absurd rfl (hnd gs)
      | none => exact absurd htr (by decide)
      | bool b => simp [parseTop, pyGet, pyGetD, hlk, htr]
      | int n => simp [parseTop, pyGet, pyGetD, hlk, htr]
      | str s => simp [parseTop, pyGet, pyGetD, hlk, htr]
      | list xs => simp [parseTop, pyGet, pyGetD, hlk, htr]
    unfold classifyFetch
    dsimp only
    rw [if_pos rfl, hpe]

/-- Witness for fetch classification: a 200 response whose `data` object has
no `notices` key classifies to an unset topNotice with no error. -/
theorem fetch_outcome_classification_witness :
    ∃ m, classifyFetch (.response 200 (PyVal.dict [("data", PyVal.dict [])])) 0 "e" "x" 5 "u"
        = .ok m ∧
      m.top = Option.none ∧ m.error = Option.none ∧ m.code = some 200 :=
  fetch_outcome_classification.2.2.2.1 [("data", PyVal.dict [])] 0 "e" "x" 5 "u"
    (by
      intro d hd
      have hd' : some (PyVal.dict []) = some d := hd
      cases hd'
      exact Or.inl rfl)

/-- C8 is refuted as stated: a received 200 response whose decoded body is
the object with a string `"data"` field (`data.get` on a non-dict) raises an
uncaught `AttributeError` during classification, so no PollResult with
httpStatus set is ever produced, although an HTTP response was received and
the expected structure is absent. -/
theorem fetch_200_malformed_body_no_pollresult :
    classifyFetch (.response 200 (PyVal.dict [("data", PyVal.str "x")])) 0 "-" "-" 5 "u"
      = Except.error "AttributeError" := rfl

/-- C10: a present but unparseable starting-watermark value does not fail
startup; the watermark silently starts at `0`, exactly as if the value were
absent, and every subsequent evaluation behaves identically to an unseeded
process. -/
theorem startWatermark_invalid_env_defaults_to_zero (s : String)
    (h : ∃ e, pyIntOfStr s = .error e) :
    initWatermark (some s) = 0 ∧
    initWatermark (some s) = initWatermark Option.none ∧
    ∀ (fa sv : String) (sl : Int) (m : Meta),
      evaluate fa sv sl m (initWatermark (some s)) =
        evaluate fa sv sl m (initWatermark Option.none) := by
  obtain ⟨e, he⟩ := h
  refine ⟨?_, ?_, ?_⟩
  · simp [initWatermark, he]
  · simp [initWatermark, he]
  · intro fa sv sl m
    simp [initWatermark, he]

/-- Witness for the startup-watermark theorem at the unparseable value
`"abc"`. -/
theorem startWatermark_invalid_env_defaults_to_zero_witness :
    (∃ e, pyIntOfStr "abc" = .error e) ∧ initWatermark (some "abc") = 0 :=
  ⟨⟨"ValueError", rfl⟩,
   (startWatermark_invalid_env_defaults_to_zero "abc" ⟨"ValueError", rfl⟩).1⟩

/-! #### Ticker extraction lemmas (C7) -/

/-- The lazy `[^\n]*?(?:trigger)` search succeeds exactly when a trigger
phrase occurs at or after the position, across only non-newline text. -/
lemma trigSearch_iff (s : List Char) :
    trigSearch s = true ↔
      ∃ mid tail, s = mid ++ tail ∧ (∀ c ∈ mid, c ≠ '\n') ∧ trigAny tail = true := by
  induction s with
  | nil =>
    constructor
    · intro h
      exact ⟨[], [], rfl, by simp, h⟩
    · rintro ⟨mid, tail, heq, _, htr⟩
      rcases List.append_eq_nil.mp heq.symm with ⟨rfl, rfl⟩
      exact htr
  | cons c cs ih =>
    constructor
    · intro h
      simp only [trigSearch, Bool.or_eq_true, Bool.and_eq_true, bne_iff_ne, ne_eq] at h
      rcases h with h | ⟨hne, h⟩
      · exact ⟨[], c :: cs, rfl, by simp, h⟩
      · obtain ⟨mid, tail, heq, hmid, htr⟩ := ih.mp h
        refine ⟨c :: mid, tail, by rw [List.cons_append, heq], ?_, htr⟩
        intro x hx
        rcases List.mem_cons.mp hx with rfl | hx
        · exact hne
        · exact hmid x hx
    · rintro ⟨mid, tail, heq, hmid, htr⟩
      simp only [trigSearch, Bool.or_eq_true, Bool.and_eq_true, bne_iff_ne, ne_eq]
      cases mid with
      | nil =>
        simp only [List.nil_append] at heq
        rw [heq]
        exact Or.inl htr
      | cons m ms =>
        rw [List.cons_append] at heq
        injection heq with h1 h2
        subst h1
        refine Or.inr ⟨hmid c (List.mem_cons_self c ms), ih.mpr ⟨ms, tail, h2, ?_, htr⟩⟩
        intro x hx
        exact hmid x (List.mem_cons_of_mem c hx)

/-- Computing `takeWhile`/`dropWhile` on a class run followed by a stop character. -/
lemma takeWhile_append_stop (p : Char → Bool) (code r : List Char) (x : Char)
    (hall : ∀ c ∈ code, p c = true) (hx : p x = false) :
    (code ++ x :: r).takeWhile p = code ∧ (code ++ x :: r).dropWhile p = x :: r := by
  induction code with
  | nil =>
    simp [List.takeWhile, List.dropWhile, hx]
  | cons a as ih =>
    have ha : p a = true := hall a (List.mem_cons_self a as)
    have := ih (fun c hc => hall c (List.mem_cons_of_mem a hc))
    constructor
    · rw [List.cons_append, List.takeWhile_cons, ha]
      simp [this.1]
    · rw [List.cons_append, List.dropWhile_cons, ha]
      simp [this.2]

/-- The executable single-position matcher agrees with the declarative
pattern: it returns exactly the group-1 code of a match at this position. -/
lemma tickerMatchAt_iff (l code : List Char) :
    tickerMatchAt l = some code ↔ TickerPatternAt l code := by
  constructor
  · intro h
    cases l with
    | nil => exact absurd h (by simp [tickerMatchAt])
    | cons c rest =>
      unfold tickerMatchAt at h
      dsimp only at h
      by_cases hc : c = '('
      · rw [if_pos hc] at h
        subst hc
        cases hds : rest.dropWhile isCodeChar with
        | nil => rw [hds] at h; exact absurd h (by simp)
        | cons d rest2 =>
          rw [hds] at h
          dsimp only at h
          by_cases hd : d = ')'
          · rw [if_pos hd] at h
            subst hd
            by_cases he : (rest.takeWhile isCodeChar).isEmpty = true
            · rw [if_pos he] at h; exact absurd h (by simp)
            · rw [if_neg he] at h
              by_cases htr : trigSearch rest2 = true
              · rw [if_pos htr] at h
                simp only [Option.some.injEq] at h
                subst h
                obtain ⟨mid, tail, heq2, hmid, htany⟩ := (trigSearch_iff rest2).mp htr
                refine ⟨?_, ?_, mid, tail, ?_, hmid, htany⟩
                · intro hnil
                  rw [hnil] at he
                  exact he rfl
                · intro x hx
                  exact List.mem_takeWhile_imp hx
                · have hsplit : rest.takeWhile isCodeChar ++ rest.dropWhile isCodeChar
                      = rest := List.takeWhile_append_dropWhile isCodeChar rest
                  rw [← heq2, ← hds, hsplit]
              · rw [if_neg htr] at h; exact absurd h (by simp)
          · rw [if_neg hd] at h; exact absurd h (by simp)
      · rw [if_neg hc] at h; exact absurd h (by simp)
  · rintro ⟨hne, hall, mid, tail, heq, hmid, htany⟩
    subst heq
    obtain ⟨htw, hdw⟩ := takeWhile_append_stop isCodeChar code (mid ++ tail) ')' hall
      (by decide)
    simp only [tickerMatchAt]
    rw [if_pos trivial, hdw]
    dsimp only
    rw [if_pos rfl, htw]
    have hie : code.isEmpty = false := by
      cases code with
      | nil => exact absurd rfl hne
      | cons a as => rfl
    rw [hie, if_neg Bool.false_ne_true,
      if_pos ((trigSearch_iff (mid ++ tail)).mpr ⟨mid, tail, rfl, hmid, htany⟩)]

/-- Left-to-right search: a `none` result means no position matches, a
`some` result is the leftmost position's match. -/
lemma tickerSearch_spec (l : List Char) :
    (tickerSearch l = Option.none → ∀ i, tickerMatchAt (l.drop i) = Option.none) ∧
    (∀ g, tickerSearch l = some g →
      ∃ i, tickerMatchAt (l.drop i) = some g ∧
        ∀ j, j < i → tickerMatchAt (l.drop j) = Option.none) := by
  induction l with
  | nil =>
    constructor
    · intro _ i
      rw [List.drop_nil]
      rfl
    · intro g h
      exact absurd h (by simp [tickerSearch])
  | cons c cs ih =>
    constructor
    · intro h i
      unfold tickerSearch at h
      cases hm : tickerMatchAt (c :: cs) with
      | some g => rw [hm] at h; exact absurd h (by simp)
      | none =>
        rw [hm] at h
        dsimp only at h
        cases i with
        | zero => exact hm
        | succ j =>
          rw [List.drop_succ_cons]
          exact ih.1 h j
    · intro g h
      unfold tickerSearch at h
      cases hm : tickerMatchAt (c :: cs) with
      | some g' =>
        rw [hm] at h
        simp only [Option.some.injEq] at h
        subst h
        exact ⟨0, hm, fun j hj => absurd hj (Nat.not_lt_zero j)⟩
      | none =>
        rw [hm] at h
        dsimp only at h
        obtain ⟨i, hi, hmin⟩ := ih.2 g h
        refine ⟨i + 1, by rw [List.drop_succ_cons]; exact hi, ?_⟩
        intro j hj
        cases j with
        | zero => exact hm
        | succ j' =>
          rw [List.drop_succ_cons]
          exact hmin j' (Nat.lt_of_succ_lt_succ hj)

/-- C7: the TickerExtractor is total from strings to strings; on every title
it returns the group-1 code of the leftmost `TICKER_RE` match (a
parenthesized class-character code later followed, across no newline, by a
trigger phrase) and the empty string when no position matches. In particular
the spec's two examples: a new-trading-support title yields `"BTC"` and a
title with no trigger phrase yields `""`, and the empty title yields `""`. -/
theorem extract_total_leftmost_match :
    (∀ title : String,
      (∃ i code, extract title = String.mk code ∧ code ≠ [] ∧
        TickerPatternAt (title.data.drop i) code ∧
        ∀ j, j < i → ∀ c, ¬ TickerPatternAt (title.data.drop j) c) ∨
      (extract title = "" ∧ ∀ i c, ¬ TickerPatternAt (title.data.drop i) c)) ∧
    extract "주식회사 가상자산 (BTC) 신규 거래지원 안내" = "BTC" ∧
    extract "(BTC) 일반 안내" = "" ∧
    extract "" = "" := by
  refine ⟨?_, by decide, by decide, rfl⟩
  intro title
  by_cases h0 : title = ""
  · subst h0
    right
    refine ⟨rfl, ?_⟩
    rintro i c ⟨_, _, mid, tail, heq, _, _⟩
    rw [show ("" : String).data = [] from rfl, List.drop_nil] at heq
    exact List.noConfusion heq
  · have hex : extract title = ((tickerSearch title.data).map String.mk).getD "" := by
      unfold extract extract_ticker
      rw [if_neg h0]
    cases hs : tickerSearch title.data with
    | none =>
      right
      rw [hs] at hex
      refine ⟨hex, ?_⟩
      intro i c hc
      have hnone := (tickerSearch_spec title.data).1 hs i
      rw [(tickerMatchAt_iff _ c).mpr hc] at hnone
      exact Option.noConfusion hnone
    | some g =>
      left
      rw [hs] at hex
      obtain ⟨i, hi, hmin⟩ := (tickerSearch_spec title.data).2 g hs
      have hpat := (tickerMatchAt_iff _ g).mp hi
      refine ⟨i, g, hex, hpat.1, hpat, ?_⟩
      intro j hj c hc
      have hnone := hmin j hj
      rw [(tickerMatchAt_iff _ c).mpr hc] at hnone
      exact Option.noConfusion hnone

/-- Witness for ticker extraction: the theorem's leftmost-match alternative
instantiated at the spec's new-trading-support example. -/
theorem extract_total_leftmost_match_witness :
    (∃ i code, extract "주식회사 가상자산 (BTC) 신규 거래지원 안내" = String.mk code ∧ code ≠ [] ∧
      TickerPatternAt (("주식회사 가상자산 (BTC) 신규 거래지원 안내" : String).data.drop i) code ∧
      ∀ j, j < i → ∀ c,
        ¬ TickerPatternAt (("주식회사 가상자산 (BTC) 신규 거래지원 안내" : String).data.drop j) c) ∨
    (extract "주식회사 가상자산 (BTC) 신규 거래지원 안내" = "" ∧ ∀ i c,
      ¬ TickerPatternAt (("주식회사 가상자산 (BTC) 신규 거래지원 안내" : String).data.drop i) c) :=
  extract_total_leftmost_match.1 "주식회사 가상자산 (BTC) 신규 거래지원 안내"

/-- C6: on every tick the next fire time is the previous one plus the period
(strictly increasing, advancing by exactly the period, so missed ticks are
neither skipped nor coalesced), the wait is `max 0 (nextFire - now)`, and
when the prior tick's work overran the period the wait is zero. -/
theorem advanceTick_spec (P : ℕ) (hP : 0 < P) (next_fire now : ℚ) :
    (advanceTick P next_fire now).1 = next_fire + (P : ℚ) ∧
    next_fire < (advanceTick P next_fire now).1 ∧
    (advanceTick P next_fire now).2 = max 0 ((advanceTick P next_fire now).1 - now) ∧
    ((advanceTick P next_fire now).1 ≤ now → (advanceTick P next_fire now).2 = 0) := by
  refine ⟨rfl, ?_, rfl, ?_⟩
  · have : (0 : ℚ) < (P : ℚ) := by exact_mod_cast hP
    simp [advanceTick]
    linarith
  · intro h
    simp only [advanceTick] at h ⊢
    exact max_eq_left (by linarith)

/-- Witness for the tick-advancement theorem: period 4, fire time 14,
called at time 20 (overrun), giving an immediate zero-wait fire at 18. -/
theorem advanceTick_spec_witness :
    (0 : ℕ) < 4 ∧
    ((advanceTick 4 (14 : ℚ) 20).1 = 14 + (4 : ℚ) ∧
      (14 : ℚ) < (advanceTick 4 (14 : ℚ) 20).1 ∧
      (advanceTick 4 (14 : ℚ) 20).2 = max 0 ((advanceTick 4 (14 : ℚ) 20).1 - 20) ∧
      ((advanceTick 4 (14 : ℚ) 20).1 ≤ 20 → (advanceTick 4 (14 : ℚ) 20).2 = 0)) :=
  ⟨by norm_num, advanceTick_spec 4 (by norm_num) 14 20⟩

/-- C5: for every period `P > 0`, slot `s ∈ [0, P)` and call time `now`,
the first tick chosen by `align_next_tick` lands on the slot
(`t % P = s`) and lies strictly in the future (`now < t`). -/
theorem align_next_tick_spec (P : ℕ) (s : Int) (now : ℚ) (hP : 0 < P)
    (hs0 : 0 ≤ s) (hsP : s < (P : Int)) :
    (align_next_tick P s now).1 % (P : Int) = s ∧
    now < (((align_next_tick P s now).1 : Int) : ℚ) := by
  have hPZ : (P : Int) ≠ 0 := by exact_mod_cast hP.ne'
  have hPpos : (0 : Int) < (P : Int) := by exact_mod_cast hP
  have h0 : 0 ≤ ⌊now⌋ % (P : Int) := Int.emod_nonneg _ hPZ
  have h1 : ⌊now⌋ % (P : Int) < (P : Int) := Int.emod_lt_of_pos _ hPpos
  have hfl : ((⌊now⌋ : Int) : ℚ) ≤ now := Int.floor_le now
  have hfu : now < ((⌊now⌋ : Int) : ℚ) + 1 := Int.lt_floor_add_one now
  have hbase : ∀ t : Int, (⌊now⌋ - ⌊now⌋ % (P : Int) + t) % (P : Int) = t % (P : Int) := by
    intro t
    have hdm := Int.ediv_add_emod ⌊now⌋ (P : Int)
    have : ⌊now⌋ - ⌊now⌋ % (P : Int) + t = t + (P : Int) * (⌊now⌋ / (P : Int)) := by omega
    rw [this, Int.add_mul_emod_self_left]
  have hsmod : s % (P : Int) = s := Int.emod_eq_of_lt hs0 hsP
  simp only [align_next_tick]
  split_ifs with hle
  · constructor
    · have : ⌊now⌋ - ⌊now⌋ % (P : Int) + s + (P : Int)
          = ⌊now⌋ - ⌊now⌋ % (P : Int) + (s + (P : Int)) := by ring
      rw [this, hbase, show s + (P : Int) = s + (P : Int) * 1 by ring,
        Int.add_mul_emod_self_left, hsmod]
    · have hint : ⌊now⌋ + 1 ≤ ⌊now⌋ - ⌊now⌋ % (P : Int) + s + (P : Int) := by omega
      have : ((⌊now⌋ : Int) : ℚ) + 1
          ≤ ((⌊now⌋ - ⌊now⌋ % (P : Int) + s + (P : Int) : Int) : ℚ) := by
        exact_mod_cast hint
      linarith
  · constructor
    · exact (hbase s).trans hsmod
    · exact lt_of_not_ge (fun hge => hle (by exact_mod_cast hge))

/-- Witness for slot alignment: period 4, slot 2, called at `now = 10.5`;
the chosen tick is 14, on slot and in the future. -/
theorem align_next_tick_spec_witness :
    (0 : ℕ) < 4 ∧ (0 : Int) ≤ 2 ∧ (2 : Int) < 4 ∧
    ((align_next_tick 4 2 (21/2 : ℚ)).1 % 4 = 2 ∧
      (21/2 : ℚ) < (((align_next_tick 4 2 (21/2 : ℚ)).1 : Int) : ℚ)) :=
  ⟨by norm_num, by norm_num, by norm_num,
   align_next_tick_spec 4 2 (21/2) (by norm_num) (by norm_num) (by norm_num)⟩

end UpbitPoller
